import Mathlib

/-!
# Verification of the biblib library-read core

Shallow embedding of `biblib/views/library_view.py`: the canonical-identifier
reconciler (`solr_update_library`), the local timestamp sort
(`timestamp_sort`), the permission evaluation performed in
`get_documents_from_library`, and the orchestration of `LibraryView.get`
(sort handling, solr-failure fallback, pagination window, authorization
gate).

Modelling conventions:
* A Python `dict` (the library's `bibcode` JSON column, and the
  `alternate_bibcodes` hashmap) is an association list in insertion order;
  assignment to an existing key updates the value in place (position kept),
  assignment to a fresh key appends.  Key uniqueness of a real dict is the
  `Nodup` hypothesis carried where needed.
* Timestamps are Python floats used only for ordering and equality; they are
  embedded as `Nat`.
* Python's `sorted`/`list.sort` is a stable sort; with `reverse=True` the
  comparisons are reversed while ties keep their original order.  A stable
  sort's output is uniquely determined by the input order and the key
  comparison, so both are embedded as a structurally recursive stable
  insertion sort (`isortLt`) over the appropriate strict key comparison,
  which the kernel can evaluate on concrete inputs.
-/

namespace Biblib

/-- One value of the library's `bibcode` mapping: the per-identifier metadata
dict, which holds at most a `"timestamp"` entry (`none` models a legacy entry
whose dict lacks the `"timestamp"` key). -/
structure DocEntry where
  timestamp : Option Nat
deriving DecidableEq, Repr

/-- Python `dict` lookup (`m[k]` / `k in m`) on an insertion-ordered
association list. -/
def alookup {β : Type} : List (String × β) → String → Option β
  | [], _ => none
  | (k, v) :: m, key => if k = key then some v else alookup m key

/-- Python `dict` assignment `m[key] = val`: update in place if the key is
present (keeping its position), append otherwise. -/
def ainsert {β : Type} : List (String × β) → String → β → List (String × β)
  | [], key, val => [(key, val)]
  | (k, v) :: m, key, val =>
      if k = key then (k, val) :: m else (k, v) :: ainsert m key val

/-- The library's stored document mapping (`library.bibcode`): identifier →
metadata, in insertion order. -/
abbrev DocSet := List (String × DocEntry)

/-- The fields of a `Library` row used by the read path. -/
structure Library where
  bibcode : DocSet
  date_created : Nat
  public : Bool
deriving DecidableEq, Repr

/-- One doc of the solr bigquery response: a canonical bibcode together with
its (possibly empty) `alternate_bibcode` list.  A missing
`alternate_bibcode` field is the empty list: `doc.get('alternate_bibcode')`
is falsy for both, and updating the hashmap with an empty comprehension is a
no-op. -/
structure SolrDoc where
  bibcode : String
  alternate_bibcode : List String
deriving DecidableEq, Repr

/-- List of all docs' `bibcode` fields, in response order
(`canonical_bibcodes` in the source). -/
def canonical_bibcodes (docs : List SolrDoc) : List String :=
  docs.map SolrDoc.bibcode

/-- Hashmap from each alternate bibcode to the canonical bibcode of the doc
that lists it (`alternate_bibcodes` in the source), built with `dict.update`
over the docs in order (a later doc overwrites an earlier claim on the same
alternate). -/
def alternate_bibcodes (docs : List SolrDoc) : List (String × String) :=
  docs.foldl
    (fun m doc => doc.alternate_bibcode.foldl (fun m a => ainsert m a doc.bibcode) m)
    []

/-- The loop state of `solr_update_library`: the `update` flag, the
`new_bibcode` dict being rebuilt, and the three statistics. -/
structure RecState where
  update : Bool
  new : DocSet
  num_updated : Nat
  duplicates_removed : Nat
  update_list : List (String × String)
deriving DecidableEq, Repr

/-- The lazy timestamp migration: if the metadata dict has no `"timestamp"`
key it receives the library's creation time (`default_timestamp`). -/
def backfillEntry (defTs : Nat) (e : DocEntry) : DocEntry :=
  match e.timestamp with
  | some _ => e
  | none => ⟨some defTs⟩

/-- One iteration of the `for bibcode in library.bibcode` loop of
`solr_update_library`: backfill the timestamp if missing, then keep the key
if canonical, remap it if it is a known alternate (dropping it and counting a
duplicate when the canonical target is already in `new_bibcode`), and keep it
untouched otherwise. -/
def recStep (C : List String) (A : List (String × String)) (defTs : Nat)
    (s : RecState) (kv : String × DocEntry) : RecState :=
  let k := kv.1
  let v := backfillEntry defTs kv.2
  let upd := s.update || kv.2.timestamp.isNone
  if k ∈ C then
    { s with update := upd, new := ainsert s.new k v }
  else
    match alookup A k with
    | some c =>
      if (alookup s.new c).isSome then
        { update := true, new := s.new,
          num_updated := s.num_updated + 1,
          duplicates_removed := s.duplicates_removed + 1,
          update_list := s.update_list ++ [(k, c)] }
      else
        { update := true, new := ainsert s.new c v,
          num_updated := s.num_updated + 1,
          duplicates_removed := s.duplicates_removed,
          update_list := s.update_list ++ [(k, c)] }
    | none =>
      { s with update := upd, new := ainsert s.new k v }

/-- Result of `solr_update_library`: the stored mapping after the call
(rebuilt and committed when the `update` flag is set, untouched otherwise),
whether a write happened, and the returned statistics dict. -/
structure RecResult where
  newBibcode : DocSet
  wrote : Bool
  num_updated : Nat
  duplicates_removed : Nat
  update_list : List (String × String)
deriving DecidableEq, Repr

/-- Embedding of `LibraryView.solr_update_library`: reconcile the stored
mapping against the solr response docs. -/
def solr_update_library (lib : Library) (docs : List SolrDoc) : RecResult :=
  let C := canonical_bibcodes docs
  let A := alternate_bibcodes docs
  let s := lib.bibcode.foldl (recStep C A lib.date_created)
    { update := false, new := [], num_updated := 0, duplicates_removed := 0,
      update_list := [] }
  { newBibcode := if s.update then s.new else lib.bibcode,
    wrote := s.update,
    num_updated := s.num_updated,
    duplicates_removed := s.duplicates_removed,
    update_list := s.update_list }

/-- Final loop state of `solr_update_library`, for stating field equations
of the result. -/
def recFinal (lib : Library) (docs : List SolrDoc) : RecState :=
  lib.bibcode.foldl
    (recStep (canonical_bibcodes docs) (alternate_bibcodes docs) lib.date_created)
    { update := false, new := [], num_updated := 0, duplicates_removed := 0,
      update_list := [] }

/-- An entry the reconciler has finished with: its timestamp is present and
its key is either canonical or unknown to the alternates hashmap.  Every
entry of the rebuilt mapping satisfies this. -/
def GoodVal (C : List String) (A : List (String × String))
    (k : String) (v : DocEntry) : Prop :=
  v.timestamp.isSome = true ∧ (k ∈ C ∨ alookup A k = none)

/-- Effective role labels computed by `get_documents_from_library`. -/
inductive Role
  | owner
  | admin
  | write
  | read
  | none
deriving DecidableEq, Repr

/-- Role flags of a stored Permission row (the `permission.permissions`
JSON object with its four boolean members). -/
structure Permissions where
  owner : Bool
  admin : Bool
  write : Bool
  read : Bool
deriving DecidableEq, Repr

/-- Embedding of the flag evaluation in `get_documents_from_library`: the
`owner`/`admin`/`write`/`read` flags checked in that order, `none` when no
flag is true. -/
def main_permission (p : Permissions) : Role :=
  if p.owner then Role.owner
  else if p.admin then Role.admin
  else if p.write then Role.write
  else if p.read then Role.read
  else Role.none

/-- Flags paired with their roles in the spec's priority order
`owner > admin > write > read`. -/
def roleOrder (p : Permissions) : List (Bool × Role) :=
  [(p.owner, Role.owner), (p.admin, Role.admin),
   (p.write, Role.write), (p.read, Role.read)]

/-- Stated from the spec's words, for comparison with `main_permission`:
evaluate the flags in strict priority order, the first true flag wins, and
if none are true the role is `none`. -/
def firstTrueRole (p : Permissions) : Role :=
  match (roleOrder p).find? (fun fr => fr.1) with
  | some fr => fr.2
  | Option.none => Role.none

/-- Status of a read response.  The numeric codes and fixed bodies live in
`biblib/views/http_errors.py`, outside the provided sources, so statuses are
embedded as an enumeration of the distinct outcomes the spec fixes. -/
inductive Status
  | ok200
  | missingIdentity
  | permissionDenied
  | libraryNotFound
deriving DecidableEq, Repr

/-- Reconciliation statistics echoed in the response `updates` field. -/
structure UpdateStats where
  num_updated : Nat
  duplicates_removed : Nat
  update_list : List (String × String)
deriving DecidableEq, Repr

/-- A read response: on success `documents` is present (`some`) and
`updates` is `some stats` after a reconciliation or `none` for the empty
`{}` placeholder of the raw and fallback paths.

Modelled from the spec: the fixed error bodies (`MISSING_USERNAME_ERROR`,
`NO_PERMISSION_ERROR`, `MISSING_LIBRARY_ERROR`) are defined in
`biblib/views/http_errors.py`, which is not among the provided sources; per
the spec they are structured errors with a fixed status/body pair whose
bodies contain no `documents` key, embedded here as responses with
`documents = none`. -/
structure ReadResponse where
  status : Status
  documents : Option (List String)
  updates : Option UpdateStats
deriving DecidableEq, Repr

/-- Modelled from the spec: the `MissingIdentity` error returned when no
identity header is present. -/
def missingUsernameResp : ReadResponse :=
  { status := Status.missingIdentity, documents := Option.none,
    updates := Option.none }

/-- Modelled from the spec: the `PermissionDenied` error; its body has no
`documents` key. -/
def noPermissionResp : ReadResponse :=
  { status := Status.permissionDenied, documents := Option.none,
    updates := Option.none }

/-- Modelled from the spec: the `LibraryNotFound` error, also produced when
an unexpected internal error is caught during the fetch sequence. -/
def missingLibraryResp : ReadResponse :=
  { status := Status.libraryNotFound, documents := Option.none,
    updates := Option.none }

/-- Stable insertion of `a` into a list: `a` is placed before the first
element that does not strictly precede it, so among tied elements the
inserted element (originally earlier) comes first. -/
def insertLt {α : Type} (lt : α → α → Bool) (a : α) : List α → List α
  | [] => [a]
  | b :: l => if lt b a then b :: insertLt lt a l else a :: b :: l

/-- Stable insertion sort over a strict comparison `lt`.  Python's
`sorted`/`list.sort` is stable, and a stable sort's output is unique given
the comparison, so this is a faithful embedding of the sorts performed by
the read path. -/
def isortLt {α : Type} (lt : α → α → Bool) : List α → List α
  | [] => []
  | a :: l => insertLt lt a (isortLt lt l)

/-- Strict comparison for an ascending Python sort keyed on the timestamp
component (`key=lambda stamped: stamped[1]`). -/
def tsLtAsc (a b : String × Nat) : Bool := a.2 < b.2

/-- Strict comparison for a Python sort with `reverse=True` keyed on the
timestamp component: comparisons are reversed, ties keep original order. -/
def tsLtDesc (a b : String × Nat) : Bool := b.2 < a.2

/-- Python string comparison (lexicographic on code points), used by
`documents.sort()`. -/
def strLt (a b : String) : Bool := a < b

/-- Timestamp lookup `library.bibcode[b]["timestamp"]` used by
`timestamp_sort`; `none` models the KeyError cases (bibcode absent or
timestamp key absent). -/
def tsOf (m : DocSet) (b : String) : Option Nat :=
  (alookup m b).bind DocEntry.timestamp

/-- Timestamps of the response docs in response order (the list
comprehension building `timestamp`); `none` when any lookup raises, in which
case `timestamp_sort` catches and returns the response unchanged. -/
def tsListOf (m : DocSet) : List String → Option (List Nat)
  | [] => some []
  | b :: bs =>
    match tsOf m b, tsListOf m bs with
    | some t, some ts => some (t :: ts)
    | _, _ => Option.none

/-- Embedding of `LibraryView.timestamp_sort` acting on the response docs'
bibcodes (each solr doc is represented by its `bibcode`, the only field the
function reads or reorders): a stable sort of the docs by the library's
stored timestamps via `sorted(zip(docs, timestamp), reverse, key=snd)`,
ascending for `reverse = false` and descending for `reverse = true`; on any
lookup failure the response is returned in its original order. -/
def timestamp_sort (lib : Library) (docs : List String) (reverse : Bool) :
    List String :=
  match tsListOf lib.bibcode docs with
  | Option.none => docs
  | some ts =>
      (isortLt (if reverse then tsLtDesc else tsLtAsc) (docs.zip ts)).map Prod.fst

/-- Modelled from the spec: `Library.get_bibcodes` (defined in
`biblib/models.py`, not among the provided sources) returns the library's
stored identifiers, the keys of the bibcode mapping. -/
def get_bibcodes (lib : Library) : List String := lib.bibcode.map Prod.fst

/-- Timestamp pairs built by the solr-failure fallback of a time sort:
`[(bibcode, library.bibcode[bibcode]["timestamp"]) for bibcode in keys]`;
`none` models the KeyError when an entry lacks a timestamp, which the
enclosing `try` of `get` turns into the missing-library error. -/
def timestampPairs : DocSet → Option (List (String × Nat))
  | [] => some []
  | (k, e) :: rest =>
    match e.timestamp, timestampPairs rest with
    | some t, some ps => some ((k, t) :: ps)
    | _, _ => Option.none

/-- Python slice `documents[start : start + rows]`. -/
def paginate (docs : List String) (start rows : Nat) : List String :=
  (docs.drop start).take rows

/-- Authorization gate at the end of `LibraryView.get`: a public library (or
a configured override credential) returns the assembled response
unconditionally; otherwise the requesting user must exist and `read_access`
must grant one of read/write/admin/owner.  `read_access` and
`helper_user_exists` live in `base_view.py`, outside the provided sources,
and are abstracted as boolean functions of the requesting user. -/
def authorize (lib : Library) (overrideTok : Bool) (u : Nat)
    (userExists : Nat → Bool) (readAccess : Nat → Bool)
    (resp : ReadResponse) : ReadResponse :=
  if lib.public || overrideTok then resp
  else if userExists u then
    if readAccess u then resp else noPermissionResp
  else noPermissionResp

/-- Embedding of `LibraryView.get` from the identity-header check onward,
for one existing library: the sort-flag handling (`add_sort` is
`some true` for `time desc`, `some false` for `time asc`, `none`
otherwise), the raw path, the solr success path (reconcile, then
`timestamp_sort` guarded by the truthiness test `if add_sort:` — which fires
only for `some true` — then documents from response order), the solr-failure
fallback (local sort and window, guarded by `add_sort != None`), and the
post-fetch authorization gate.  Returns the response together with the
library state after any reconciliation write.  `solr` is the parsed
bigquery response: `some docs` when a usable `response.docs` is present,
`none` for a failure or unusable shape.  Metadata assembly and the
identity-service email lookup feed only the `metadata` field and are not
modelled. -/
def libraryGet (userHeader : Option Nat) (start rows : Nat) (sort : String)
    (raw : Bool) (overrideTok : Bool) (userExists readAccess : Nat → Bool)
    (lib : Library) (solr : Option (List SolrDoc)) : ReadResponse × Library :=
  match userHeader with
  | Option.none => (missingUsernameResp, lib)
  | some u =>
    let add_sort : Option Bool :=
      if sort = "time asc" then some false
      else if sort = "time desc" then some true
      else Option.none
    if raw then
      let ds := paginate (isortLt strLt (get_bibcodes lib)) start rows
      (authorize lib overrideTok u userExists readAccess
        { status := Status.ok200, documents := some ds, updates := Option.none },
       lib)
    else
      match solr with
      | some sdocs =>
        let r := solr_update_library lib sdocs
        let lib2 : Library := { lib with bibcode := r.newBibcode }
        let docs0 := canonical_bibcodes sdocs
        let docs1 :=
          if add_sort = some true then timestamp_sort lib2 docs0 true
          else docs0
        (authorize lib overrideTok u userExists readAccess
          { status := Status.ok200, documents := some docs1,
            updates := some
              { num_updated := r.num_updated,
                duplicates_removed := r.duplicates_removed,
                update_list := r.update_list } },
         lib2)
      | Option.none =>
        match add_sort with
        | some rev =>
          match timestampPairs lib.bibcode with
          | Option.none => (missingLibraryResp, lib)
          | some prs =>
            let sorted :=
              (isortLt (if rev then tsLtDesc else tsLtAsc) prs).map Prod.fst
            (authorize lib overrideTok u userExists readAccess
              { status := Status.ok200,
                documents := some (paginate sorted start rows),
                updates := Option.none },
             lib)
        | Option.none =>
          let ds := paginate (isortLt strLt (get_bibcodes lib)) start rows
          (authorize lib overrideTok u userExists readAccess
            { status := Status.ok200, documents := some ds,
              updates := Option.none },
           lib)

/-! ## Association-list lemmas -/

theorem alookup_ainsert_self {β : Type} (m : List (String × β)) (k : String) (v : β) :
    alookup (ainsert m k v) k = some v := by
  induction m with
  | nil => simp [ainsert, alookup]
  | cons p m ih =>
    by_cases h : p.1 = k
    · simp [ainsert, alookup, h]
    · simp [ainsert, alookup, h, ih]

theorem alookup_ainsert_ne {β : Type} (m : List (String × β)) {k k' : String} (v : β)
    (h : k' ≠ k) : alookup (ainsert m k' v) k = alookup m k := by
  induction m with
  | nil => simp [ainsert, alookup, h]
  | cons p m ih =>
    by_cases hp : p.1 = k'
    · simp [ainsert, alookup, hp, h]
    · simp only [ainsert, hp, if_false, alookup]
      by_cases hk : p.1 = k
      · simp [hk]
      · simp [hk, ih]

theorem mem_ainsert {β : Type} {m : List (String × β)} {k : String} {v : β}
    {p : String × β} (hp : p ∈ ainsert m k v) : p ∈ m ∨ p = (k, v) := by
  induction m with
  | nil => simpa [ainsert] using hp
  | cons q m ih =>
    by_cases hq : q.1 = k
    · simp only [ainsert, hq, if_true, List.mem_cons] at hp
      rcases hp with hp | hp
      · right; rw [hp, ← hq]
      · left; exact List.mem_cons_of_mem _ hp
    · simp only [ainsert, hq, if_false, List.mem_cons] at hp
      rcases hp with hp | hp
      · left; exact hp ▸ List.mem_cons_self _ _
      · rcases ih hp with h | h
        · left; exact List.mem_cons_of_mem _ h
        · right; exact h

theorem mem_keys_ainsert {β : Type} (m : List (String × β)) (k : String) (v : β)
    (a : String) :
    a ∈ (ainsert m k v).map Prod.fst ↔ a ∈ m.map Prod.fst ∨ a = k := by
  induction m with
  | nil => simp [ainsert]
  | cons q m ih =>
    by_cases hq : q.1 = k
    · simp only [ainsert, hq, if_true, List.map_cons, List.mem_cons]
      tauto
    · simp only [ainsert, hq, if_false, List.map_cons, List.mem_cons, ih]
      tauto

theorem nodup_keys_ainsert {β : Type} {m : List (String × β)} (k : String) (v : β)
    (h : (m.map Prod.fst).Nodup) : ((ainsert m k v).map Prod.fst).Nodup := by
  induction m with
  | nil => simp [ainsert]
  | cons q m ih =>
    by_cases hq : q.1 = k
    · simpa [ainsert, hq] using h
    · simp only [List.map_cons, List.nodup_cons] at h
      simp only [ainsert, hq, if_false, List.map_cons, List.nodup_cons]
      refine ⟨?_, ih h.2⟩
      rw [mem_keys_ainsert]
      rintro (hc | hc)
      · exact h.1 hc
      · exact hq hc

theorem length_ainsert_le {β : Type} (m : List (String × β)) (k : String) (v : β) :
    (ainsert m k v).length ≤ m.length + 1 := by
  induction m with
  | nil => simp [ainsert]
  | cons q m ih =>
    by_cases hq : q.1 = k
    · simp [ainsert, hq]
    · simp only [ainsert, hq, if_false, List.length_cons]
      omega

theorem alookup_eq_none_iff {β : Type} (m : List (String × β)) (k : String) :
    alookup m k = none ↔ k ∉ m.map Prod.fst := by
  induction m with
  | nil => simp [alookup]
  | cons q m ih =>
    by_cases hq : q.1 = k
    · simp [alookup, hq]
    · simp [alookup, hq, ih, Ne.symm hq]

theorem alookup_isSome_iff {β : Type} (m : List (String × β)) (k : String) :
    (alookup m k).isSome = true ↔ k ∈ m.map Prod.fst := by
  induction m with
  | nil => simp [alookup]
  | cons q m ih =>
    by_cases hq : q.1 = k
    · simp [alookup, hq]
    · simp [alookup, hq, ih, Ne.symm hq]

theorem ainsert_of_not_mem_keys {β : Type} {m : List (String × β)} {k : String}
    (v : β) (h : k ∉ m.map Prod.fst) : ainsert m k v = m ++ [(k, v)] := by
  induction m with
  | nil => simp [ainsert]
  | cons q m ih =>
    simp only [List.map_cons, List.mem_cons] at h
    push_neg at h
    simp [ainsert, Ne.symm h.1, ih h.2]

theorem alookup_of_mem_nodup {β : Type} {m : List (String × β)} {k : String} {v : β}
    (hnd : (m.map Prod.fst).Nodup) (hmem : (k, v) ∈ m) : alookup m k = some v := by
  induction m with
  | nil => simp at hmem
  | cons q m ih =>
    simp only [List.map_cons, List.nodup_cons] at hnd
    rcases List.mem_cons.mp hmem with h | h
    · simp [alookup, ← h]
    · have hk : q.1 ≠ k := by
        intro hq
        exact hnd.1 (hq ▸ List.mem_map_of_mem Prod.fst h)
      simp [alookup, hk, ih hnd.2 h]

theorem backfillEntry_isSome (defTs : Nat) (e : DocEntry) :
    (backfillEntry defTs e).timestamp.isSome = true := by
  cases e with
  | mk t => cases t <;> simp [backfillEntry]

theorem backfillEntry_of_isSome (defTs : Nat) {e : DocEntry}
    (h : e.timestamp.isSome = true) : backfillEntry defTs e = e := by
  cases e with
  | mk t => cases t <;> simp_all [backfillEntry]

/-! ## Reconciler loop: branch reduction lemmas -/

theorem recStep_canonical (C : List String) (A : List (String × String)) (defTs : Nat)
    (s : RecState) {kv : String × DocEntry} (h : kv.1 ∈ C) :
    recStep C A defTs s kv =
      { s with update := s.update || kv.2.timestamp.isNone,
               new := ainsert s.new kv.1 (backfillEntry defTs kv.2) } := by
  simp [recStep, h]

theorem recStep_unrec (C : List String) (A : List (String × String)) (defTs : Nat)
    (s : RecState) {kv : String × DocEntry} (h : kv.1 ∉ C)
    (hA : alookup A kv.1 = none) :
    recStep C A defTs s kv =
      { s with update := s.update || kv.2.timestamp.isNone,
               new := ainsert s.new kv.1 (backfillEntry defTs kv.2) } := by
  simp [recStep, h, hA]

theorem recStep_alt_dup (C : List String) (A : List (String × String)) (defTs : Nat)
    (s : RecState) {kv : String × DocEntry} {c : String} (h : kv.1 ∉ C)
    (hA : alookup A kv.1 = some c) (hS : (alookup s.new c).isSome = true) :
    recStep C A defTs s kv =
      { update := true, new := s.new,
        num_updated := s.num_updated + 1,
        duplicates_removed := s.duplicates_removed + 1,
        update_list := s.update_list ++ [(kv.1, c)] } := by
  simp [recStep, h, hA, hS]

theorem recStep_alt_fresh (C : List String) (A : List (String × String)) (defTs : Nat)
    (s : RecState) {kv : String × DocEntry} {c : String} (h : kv.1 ∉ C)
    (hA : alookup A kv.1 = some c) (hS : (alookup s.new c).isSome = false) :
    recStep C A defTs s kv =
      { update := true, new := ainsert s.new c (backfillEntry defTs kv.2),
        num_updated := s.num_updated + 1,
        duplicates_removed := s.duplicates_removed,
        update_list := s.update_list ++ [(kv.1, c)] } := by
  simp [recStep, h, hA, hS]

/-! ## Values of the alternates hashmap are canonical bibcodes -/

theorem alookup_alt_inner {S : List String} {b : String} (hb : b ∈ S) :
    ∀ (alts : List String) (m : List (String × String)),
      (∀ k c, alookup m k = some c → c ∈ S) →
      ∀ k c, alookup (alts.foldl (fun m a => ainsert m a b) m) k = some c → c ∈ S := by
  intro alts
  induction alts with
  | nil => intro m hm k c h; exact hm k c h
  | cons a alts ih =>
    intro m hm k c h
    refine ih (ainsert m a b) ?_ k c h
    intro k' c' h'
    by_cases hk : a = k'
    · subst hk
      rw [alookup_ainsert_self] at h'
      cases h'
      exact hb
    · rw [alookup_ainsert_ne m b hk] at h'
      exact hm k' c' h'

theorem alookup_alt_outer {S : List String} :
    ∀ (docs : List SolrDoc) (m : List (String × String)),
      (∀ d ∈ docs, d.bibcode ∈ S) →
      (∀ k c, alookup m k = some c → c ∈ S) →
      ∀ k c,
        alookup (docs.foldl
          (fun m doc => doc.alternate_bibcode.foldl (fun m a => ainsert m a doc.bibcode) m)
          m) k = some c → c ∈ S := by
  intro docs
  induction docs with
  | nil => intro m _ hm k c h; exact hm k c h
  | cons d docs ih =>
    intro m hd hm k c h
    refine ih _ (fun x hx => hd x (List.mem_cons_of_mem _ hx)) ?_ k c h
    exact alookup_alt_inner (hd d (List.mem_cons_self _ _)) d.alternate_bibcode m hm

theorem alternate_mem_canonical (docs : List SolrDoc) {k c : String}
    (h : alookup (alternate_bibcodes docs) k = some c) :
    c ∈ canonical_bibcodes docs := by
  refine alookup_alt_outer docs [] ?_ ?_ k c h
  · intro d hd
    exact List.mem_map_of_mem SolrDoc.bibcode hd
  · intro k' c' h'
    simp [alookup] at h'

/-! ## Reconciler fold invariants -/

theorem fold_new_good (C : List String) (A : List (String × String)) (defTs : Nat)
    (hA : ∀ k c, alookup A k = some c → c ∈ C) :
    ∀ (l : List (String × DocEntry)) (s : RecState),
      (∀ p ∈ s.new, GoodVal C A p.1 p.2) →
      ∀ p ∈ (l.foldl (recStep C A defTs) s).new, GoodVal C A p.1 p.2 := by
  intro l
  induction l with
  | nil => intro s hs p hp; exact hs p hp
  | cons kv l ih =>
    intro s hs p hp
    rw [List.foldl_cons] at hp
    refine ih (recStep C A defTs s kv) ?_ p hp
    intro q hq
    by_cases hC : kv.1 ∈ C
    · rw [recStep_canonical C A defTs s hC] at hq
      rcases mem_ainsert hq with h | h
      · exact hs q h
      · subst h
        exact ⟨backfillEntry_isSome defTs kv.2, Or.inl hC⟩
    · cases hAk : alookup A kv.1 with
      | none =>
        rw [recStep_unrec C A defTs s hC hAk] at hq
        rcases mem_ainsert hq with h | h
        · exact hs q h
        · subst h
          exact ⟨backfillEntry_isSome defTs kv.2, Or.inr hAk⟩
      | some c =>
        cases hS : (alookup s.new c).isSome with
        | true =>
          rw [recStep_alt_dup C A defTs s hC hAk hS] at hq
          exact hs q hq
        | false =>
          rw [recStep_alt_fresh C A defTs s hC hAk hS] at hq
          rcases mem_ainsert hq with h | h
          · exact hs q h
          · subst h
            exact ⟨backfillEntry_isSome defTs kv.2, Or.inl (hA _ _ hAk)⟩

theorem fold_new_nodup (C : List String) (A : List (String × String)) (defTs : Nat) :
    ∀ (l : List (String × DocEntry)) (s : RecState),
      ((s.new.map Prod.fst).Nodup) →
      (((l.foldl (recStep C A defTs) s).new.map Prod.fst)).Nodup := by
  intro l
  induction l with
  | nil => intro s hs; exact hs
  | cons kv l ih =>
    intro s hs
    rw [List.foldl_cons]
    refine ih (recStep C A defTs s kv) ?_
    by_cases hC : kv.1 ∈ C
    · rw [recStep_canonical C A defTs s hC]
      exact nodup_keys_ainsert _ _ hs
    · cases hAk : alookup A kv.1 with
      | none =>
        rw [recStep_unrec C A defTs s hC hAk]
        exact nodup_keys_ainsert _ _ hs
      | some c =>
        cases hS : (alookup s.new c).isSome with
        | true =>
          rw [recStep_alt_dup C A defTs s hC hAk hS]
          exact hs
        | false =>
          rw [recStep_alt_fresh C A defTs s hC hAk hS]
          exact nodup_keys_ainsert _ _ hs

theorem fold_good_run (C : List String) (A : List (String × String)) (defTs : Nat) :
    ∀ (l : List (String × DocEntry)) (acc : DocSet),
      (∀ p ∈ l, GoodVal C A p.1 p.2) →
      ((l.map Prod.fst).Nodup) →
      (∀ p ∈ l, p.1 ∉ acc.map Prod.fst) →
      l.foldl (recStep C A defTs)
        { update := false, new := acc, num_updated := 0, duplicates_removed := 0,
          update_list := [] } =
      { update := false, new := acc ++ l, num_updated := 0, duplicates_removed := 0,
        update_list := [] } := by
  intro l
  induction l with
  | nil => intro acc _ _ _; simp
  | cons kv l ih =>
    intro acc hgood hnd hfresh
    have hg := hgood kv (List.mem_cons_self _ _)
    have hts : kv.2.timestamp.isNone = false := by
      rw [Option.isNone_eq_false_iff]
      exact hg.1
    have hbf : backfillEntry defTs kv.2 = kv.2 := backfillEntry_of_isSome defTs hg.1
    have hins : ainsert acc kv.1 kv.2 = acc ++ [kv] := by
      rw [ainsert_of_not_mem_keys kv.2 (hfresh kv (List.mem_cons_self _ _))]
    have hstep : recStep C A defTs
        { update := false, new := acc, num_updated := 0, duplicates_removed := 0,
          update_list := [] } kv =
        { update := false, new := acc ++ [kv], num_updated := 0,
          duplicates_removed := 0, update_list := [] } := by
      rcases hg.2 with hC | hAk
      · rw [recStep_canonical C A defTs _ hC]
        simp [hts, hbf, hins]
      · by_cases hC : kv.1 ∈ C
        · rw [recStep_canonical C A defTs _ hC]
          simp [hts, hbf, hins]
        · rw [recStep_unrec C A defTs _ hC hAk]
          simp [hts, hbf, hins]
    rw [List.foldl_cons, hstep]
    rw [ih (acc ++ [kv])]
    · simp
    · intro p hp
      exact hgood p (List.mem_cons_of_mem _ hp)
    · simp only [List.map_cons, List.nodup_cons] at hnd
      exact hnd.2
    · intro p hp
      simp only [List.map_append, List.mem_append, List.map_cons, List.map_nil,
        List.mem_singleton]
      simp only [List.map_cons, List.nodup_cons] at hnd
      rintro (hc | hc)
      · exact hfresh p (List.mem_cons_of_mem _ hp) hc
      · exact hnd.1 (hc ▸ List.mem_map_of_mem Prod.fst hp)

theorem fold_update_mono (C : List String) (A : List (String × String)) (defTs : Nat) :
    ∀ (l : List (String × DocEntry)) (s : RecState), s.update = true →
      (l.foldl (recStep C A defTs) s).update = true := by
  intro l
  induction l with
  | nil => intro s hs; exact hs
  | cons kv l ih =>
    intro s hs
    rw [List.foldl_cons]
    refine ih (recStep C A defTs s kv) ?_
    by_cases hC : kv.1 ∈ C
    · rw [recStep_canonical C A defTs s hC]
      simp [hs]
    · cases hAk : alookup A kv.1 with
      | none =>
        rw [recStep_unrec C A defTs s hC hAk]
        simp [hs]
      | some c =>
        cases hS : (alookup s.new c).isSome with
        | true => rw [recStep_alt_dup C A defTs s hC hAk hS]
        | false => rw [recStep_alt_fresh C A defTs s hC hAk hS]

theorem fold_update_false (C : List String) (A : List (String × String)) (defTs : Nat) :
    ∀ (l : List (String × DocEntry)) (s : RecState),
      (l.foldl (recStep C A defTs) s).update = false →
      s.update = false ∧ ∀ p ∈ l, GoodVal C A p.1 p.2 := by
  intro l
  induction l with
  | nil => intro s hs; exact ⟨hs, by simp⟩
  | cons kv l ih =>
    intro s hs
    rw [List.foldl_cons] at hs
    obtain ⟨hstep, hrest⟩ := ih (recStep C A defTs s kv) hs
    have hkv : s.update = false ∧ GoodVal C A kv.1 kv.2 := by
      by_cases hC : kv.1 ∈ C
      · rw [recStep_canonical C A defTs s hC] at hstep
        simp only [Bool.or_eq_false_iff, Option.isNone_eq_false_iff] at hstep
        exact ⟨hstep.1, hstep.2, Or.inl hC⟩
      · cases hAk : alookup A kv.1 with
        | none =>
          rw [recStep_unrec C A defTs s hC hAk] at hstep
          simp only [Bool.or_eq_false_iff, Option.isNone_eq_false_iff] at hstep
          exact ⟨hstep.1, hstep.2, Or.inr hAk⟩
        | some c =>
          cases hS : (alookup s.new c).isSome with
          | true => rw [recStep_alt_dup C A defTs s hC hAk hS] at hstep; cases hstep
          | false => rw [recStep_alt_fresh C A defTs s hC hAk hS] at hstep; cases hstep
    refine ⟨hkv.1, ?_⟩
    intro p hp
    rcases List.mem_cons.mp hp with h | h
    · exact h ▸ hkv.2
    · exact hrest p h

theorem fold_new_length (C : List String) (A : List (String × String)) (defTs : Nat) :
    ∀ (l : List (String × DocEntry)) (s : RecState),
      ((l.foldl (recStep C A defTs) s).new).length ≤ s.new.length + l.length := by
  intro l
  induction l with
  | nil => intro s; simp
  | cons kv l ih =>
    intro s
    rw [List.foldl_cons]
    refine le_trans (ih (recStep C A defTs s kv)) ?_
    have hstep : (recStep C A defTs s kv).new.length ≤ s.new.length + 1 := by
      by_cases hC : kv.1 ∈ C
      · rw [recStep_canonical C A defTs s hC]
        exact length_ainsert_le _ _ _
      · cases hAk : alookup A kv.1 with
        | none =>
          rw [recStep_unrec C A defTs s hC hAk]
          exact length_ainsert_le _ _ _
        | some c =>
          cases hS : (alookup s.new c).isSome with
          | true =>
            rw [recStep_alt_dup C A defTs s hC hAk hS]
            exact Nat.le_succ _
          | false =>
            rw [recStep_alt_fresh C A defTs s hC hAk hS]
            exact length_ainsert_le _ _ _
    simp only [List.length_cons]
    omega

theorem fold_preserve_lookup (C : List String) (A : List (String × String)) (defTs : Nat)
    (hA : ∀ x c, alookup A x = some c → c ∈ C) {k : String} (hkC : k ∉ C) :
    ∀ (l : List (String × DocEntry)) (s : RecState), k ∉ l.map Prod.fst →
      alookup (l.foldl (recStep C A defTs) s).new k = alookup s.new k := by
  intro l
  induction l with
  | nil => intro s _; rfl
  | cons kv l ih =>
    intro s hk
    simp only [List.map_cons, List.mem_cons] at hk
    push_neg at hk
    rw [List.foldl_cons, ih (recStep C A defTs s kv) hk.2]
    by_cases hC : kv.1 ∈ C
    · rw [recStep_canonical C A defTs s hC]
      exact alookup_ainsert_ne s.new _ (Ne.symm hk.1)
    · cases hAk : alookup A kv.1 with
      | none =>
        rw [recStep_unrec C A defTs s hC hAk]
        exact alookup_ainsert_ne s.new _ (Ne.symm hk.1)
      | some c =>
        have hck : c ≠ k := by
          intro hc
          exact hkC (hc ▸ hA _ _ hAk)
        cases hS : (alookup s.new c).isSome with
        | true => rw [recStep_alt_dup C A defTs s hC hAk hS]
        | false =>
          rw [recStep_alt_fresh C A defTs s hC hAk hS]
          exact alookup_ainsert_ne s.new _ hck

theorem recStep_counters (C : List String) (A : List (String × String)) (defTs : Nat)
    (s : RecState) (kv : String × DocEntry) :
    ∃ b : Nat, b ≤ 1 ∧
      (recStep C A defTs s kv).num_updated = s.num_updated + b ∧
      (recStep C A defTs s kv).update_list.length = s.update_list.length + b ∧
      (recStep C A defTs s kv).duplicates_removed ≤ s.duplicates_removed + b := by
  by_cases hC : kv.1 ∈ C
  · exact ⟨0, by simp [recStep_canonical C A defTs s hC]⟩
  · cases hAk : alookup A kv.1 with
    | none => exact ⟨0, by simp [recStep_unrec C A defTs s hC hAk]⟩
    | some c =>
      cases hS : (alookup s.new c).isSome with
      | true => exact ⟨1, by simp [recStep_alt_dup C A defTs s hC hAk hS]⟩
      | false => exact ⟨1, by simp [recStep_alt_fresh C A defTs s hC hAk hS]⟩

theorem fold_counters (C : List String) (A : List (String × String)) (defTs : Nat) :
    ∀ (l : List (String × DocEntry)) (s : RecState),
      (l.foldl (recStep C A defTs) s).update_list.length + s.num_updated
        = (l.foldl (recStep C A defTs) s).num_updated + s.update_list.length ∧
      (l.foldl (recStep C A defTs) s).duplicates_removed + s.num_updated
        ≤ (l.foldl (recStep C A defTs) s).num_updated + s.duplicates_removed := by
  intro l
  induction l with
  | nil => intro s; rw [List.foldl_nil]; omega
  | cons kv l ih =>
    intro s
    rw [List.foldl_cons]
    obtain ⟨h1, h2⟩ := ih (recStep C A defTs s kv)
    obtain ⟨b, hb, hnum, hlen, hdup⟩ := recStep_counters C A defTs s kv
    omega

theorem recStep_update_iff (C : List String) (A : List (String × String)) (defTs : Nat)
    (s : RecState) (kv : String × DocEntry) :
    (recStep C A defTs s kv).update = true ↔
      (s.update = true ∨ kv.2.timestamp = none ∨
        (kv.1 ∉ C ∧ (alookup A kv.1).isSome = true)) := by
  by_cases hC : kv.1 ∈ C
  · rw [recStep_canonical C A defTs s hC]
    simp [Option.isNone_iff_eq_none, hC]
  · cases hAk : alookup A kv.1 with
    | none =>
      rw [recStep_unrec C A defTs s hC hAk]
      simp [Option.isNone_iff_eq_none, hAk]
    | some c =>
      cases hS : (alookup s.new c).isSome with
      | true =>
        rw [recStep_alt_dup C A defTs s hC hAk hS]
        simp [hC, hAk]
      | false =>
        rw [recStep_alt_fresh C A defTs s hC hAk hS]
        simp [hC, hAk]

theorem fold_update_iff (C : List String) (A : List (String × String)) (defTs : Nat) :
    ∀ (l : List (String × DocEntry)) (s : RecState),
      (l.foldl (recStep C A defTs) s).update = true ↔
        (s.update = true ∨ ∃ p ∈ l, p.2.timestamp = none ∨
          (p.1 ∉ C ∧ (alookup A p.1).isSome = true)) := by
  intro l
  induction l with
  | nil => intro s; simp
  | cons kv l ih =>
    intro s
    rw [List.foldl_cons, ih (recStep C A defTs s kv)]
    rw [recStep_update_iff C A defTs s kv]
    simp only [List.mem_cons]
    constructor
    · rintro ((h | h | h) | ⟨p, hp, h⟩)
      · exact Or.inl h
      · exact Or.inr ⟨kv, Or.inl rfl, Or.inl h⟩
      · exact Or.inr ⟨kv, Or.inl rfl, Or.inr h⟩
      · exact Or.inr ⟨p, Or.inr hp, h⟩
    · rintro (h | ⟨p, hp | hp, h⟩)
      · exact Or.inl (Or.inl h)
      · subst hp
        rcases h with h | h
        · exact Or.inl (Or.inr (Or.inl h))
        · exact Or.inl (Or.inr (Or.inr h))
      · exact Or.inr ⟨p, hp, h⟩

theorem recStep_num_eq_iff (C : List String) (A : List (String × String)) (defTs : Nat)
    (s : RecState) (kv : String × DocEntry) :
    (recStep C A defTs s kv).num_updated = s.num_updated ↔
      (kv.1 ∈ C ∨ alookup A kv.1 = none) := by
  by_cases hC : kv.1 ∈ C
  · rw [recStep_canonical C A defTs s hC]
    simp [hC]
  · cases hAk : alookup A kv.1 with
    | none =>
      rw [recStep_unrec C A defTs s hC hAk]
      simp [hAk]
    | some c =>
      cases hS : (alookup s.new c).isSome with
      | true =>
        rw [recStep_alt_dup C A defTs s hC hAk hS]
        simp [hC]
      | false =>
        rw [recStep_alt_fresh C A defTs s hC hAk hS]
        simp [hC]

theorem recStep_num_mono (C : List String) (A : List (String × String)) (defTs : Nat)
    (s : RecState) (kv : String × DocEntry) :
    s.num_updated ≤ (recStep C A defTs s kv).num_updated := by
  obtain ⟨b, _, hnum, _, _⟩ := recStep_counters C A defTs s kv
  omega

theorem fold_num_mono (C : List String) (A : List (String × String)) (defTs : Nat) :
    ∀ (l : List (String × DocEntry)) (s : RecState),
      s.num_updated ≤ (l.foldl (recStep C A defTs) s).num_updated := by
  intro l
  induction l with
  | nil => intro s; exact le_refl _
  | cons kv l ih =>
    intro s
    rw [List.foldl_cons]
    exact le_trans (recStep_num_mono C A defTs s kv) (ih _)

theorem fold_num_eq_iff (C : List String) (A : List (String × String)) (defTs : Nat) :
    ∀ (l : List (String × DocEntry)) (s : RecState),
      (l.foldl (recStep C A defTs) s).num_updated = s.num_updated ↔
        ∀ p ∈ l, p.1 ∈ C ∨ alookup A p.1 = none := by
  intro l
  induction l with
  | nil => intro s; simp
  | cons kv l ih =>
    intro s
    rw [List.foldl_cons]
    constructor
    · intro h
      have h1 : s.num_updated ≤ (recStep C A defTs s kv).num_updated :=
        recStep_num_mono C A defTs s kv
      have h2 : (recStep C A defTs s kv).num_updated ≤
          (l.foldl (recStep C A defTs) (recStep C A defTs s kv)).num_updated :=
        fold_num_mono C A defTs l _
      have hstep : (recStep C A defTs s kv).num_updated = s.num_updated := by omega
      have hrest : (l.foldl (recStep C A defTs) (recStep C A defTs s kv)).num_updated =
          (recStep C A defTs s kv).num_updated := by omega
      intro p hp
      rcases List.mem_cons.mp hp with hpe | hpm
      · exact hpe ▸ (recStep_num_eq_iff C A defTs s kv).mp hstep
      · exact (ih _).mp hrest p hpm
    · intro h
      have hstep : (recStep C A defTs s kv).num_updated = s.num_updated :=
        (recStep_num_eq_iff C A defTs s kv).mpr (h kv (List.mem_cons_self _ _))
      rw [(ih _).mpr (fun p hp => h p (List.mem_cons_of_mem _ hp)), hstep]

/-! ## Claim theorems about the reconciler -/

/-- C10: in every ReconciliationResult returned by `solr_update_library`,
`num_updated` equals the length of `update_list`, and `duplicates_removed`
is at most `num_updated` (each duplicate drop is itself counted as a
remap). -/
theorem num_updated_eq_update_list_length (lib : Library) (docs : List SolrDoc) :
    (solr_update_library lib docs).num_updated
        = (solr_update_library lib docs).update_list.length ∧
    (solr_update_library lib docs).duplicates_removed
        ≤ (solr_update_library lib docs).num_updated := by
  have h := fold_counters (canonical_bibcodes docs) (alternate_bibcodes docs)
    lib.date_created lib.bibcode
    { update := false, new := [], num_updated := 0, duplicates_removed := 0,
      update_list := [] }
  simp only [List.length_nil, Nat.add_zero] at h
  exact ⟨h.1.symm, h.2⟩

theorem sul_wrote (lib : Library) (docs : List SolrDoc) :
    (solr_update_library lib docs).wrote = (recFinal lib docs).update := rfl

theorem sul_num (lib : Library) (docs : List SolrDoc) :
    (solr_update_library lib docs).num_updated = (recFinal lib docs).num_updated := rfl

theorem sul_dups (lib : Library) (docs : List SolrDoc) :
    (solr_update_library lib docs).duplicates_removed
      = (recFinal lib docs).duplicates_removed := rfl

theorem sul_list (lib : Library) (docs : List SolrDoc) :
    (solr_update_library lib docs).update_list = (recFinal lib docs).update_list := rfl

theorem sul_new (lib : Library) (docs : List SolrDoc) :
    (solr_update_library lib docs).newBibcode
      = if (recFinal lib docs).update then (recFinal lib docs).new else lib.bibcode := rfl

/-- C9: `solr_update_library` writes the stored DocumentSet back exactly when
at least one entry was remapped (each duplicate drop is a remap and appears in
`update_list`) or at least one timestamp was backfilled; when no such change
happened the stored mapping is left untouched. -/
theorem write_iff_change (lib : Library) (docs : List SolrDoc) :
    ((solr_update_library lib docs).wrote = true ↔
      ((solr_update_library lib docs).update_list ≠ [] ∨
        ∃ p ∈ lib.bibcode, p.2.timestamp = none)) ∧
    ((solr_update_library lib docs).wrote = false →
      (solr_update_library lib docs).newBibcode = lib.bibcode) := by
  have hup : (recFinal lib docs).update = true ↔
      ∃ p ∈ lib.bibcode, p.2.timestamp = none ∨
        (p.1 ∉ canonical_bibcodes docs ∧
          (alookup (alternate_bibcodes docs) p.1).isSome = true) := by
    have h := fold_update_iff (canonical_bibcodes docs) (alternate_bibcodes docs)
      lib.date_created lib.bibcode
      { update := false, new := [], num_updated := 0, duplicates_removed := 0,
        update_list := [] }
    simp only [Bool.false_eq_true, false_or] at h
    exact h
  have hnum : (recFinal lib docs).num_updated = 0 ↔
      ∀ p ∈ lib.bibcode, p.1 ∈ canonical_bibcodes docs ∨
        alookup (alternate_bibcodes docs) p.1 = none :=
    fold_num_eq_iff (canonical_bibcodes docs) (alternate_bibcodes docs)
      lib.date_created lib.bibcode
      { update := false, new := [], num_updated := 0, duplicates_removed := 0,
        update_list := [] }
  have hlen : (recFinal lib docs).update_list.length = (recFinal lib docs).num_updated := by
    have h := fold_counters (canonical_bibcodes docs) (alternate_bibcodes docs)
      lib.date_created lib.bibcode
      { update := false, new := [], num_updated := 0, duplicates_removed := 0,
        update_list := [] }
    simp only [List.length_nil, Nat.add_zero] at h
    exact h.1
  constructor
  · rw [sul_wrote, sul_list, hup]
    constructor
    · rintro ⟨p, hp, h | h⟩
      · exact Or.inr ⟨p, hp, h⟩
      · left
        intro hnil
        have hzero : (recFinal lib docs).num_updated = 0 := by
          rw [← hlen, hnil]
          rfl
        rcases hnum.mp hzero p hp with hc | hc
        · exact h.1 hc
        · rw [hc] at h
          simp at h
    · rintro (h | ⟨p, hp, h⟩)
      · have hnz : (recFinal lib docs).num_updated ≠ 0 := by
          intro hz
          apply h
          have : (recFinal lib docs).update_list.length = 0 := by rw [hlen, hz]
          exact List.length_eq_zero.mp this
        have hnall := (not_iff_not.mpr hnum).mp hnz
        push_neg at hnall
        obtain ⟨p, hp, hc, ha⟩ := hnall
        exact ⟨p, hp, Or.inr ⟨hc, Option.ne_none_iff_isSome.mp ha⟩⟩
      · exact ⟨p, hp, Or.inl h⟩
  · intro h
    rw [sul_wrote] at h
    rw [sul_new, h]
    simp

/-- C5: reconciliation never increases the number of stored identifiers, and
a stored identifier that is neither a canonical id nor a listed alternate in
the response survives under its own key, its metadata untouched apart from
the lazy timestamp backfill (which only fills a missing timestamp and never
alters a present one). -/
theorem reconcile_preserves_unrecognized (lib : Library) (docs : List SolrDoc)
    (hnd : (lib.bibcode.map Prod.fst).Nodup) :
    (solr_update_library lib docs).newBibcode.length ≤ lib.bibcode.length ∧
    ∀ k v, (k, v) ∈ lib.bibcode → k ∉ canonical_bibcodes docs →
      alookup (alternate_bibcodes docs) k = none →
      alookup (solr_update_library lib docs).newBibcode k
        = some (backfillEntry lib.date_created v) ∧
      (v.timestamp.isSome = true →
        alookup (solr_update_library lib docs).newBibcode k = some v) := by
  have hA : ∀ x c, alookup (alternate_bibcodes docs) x = some c →
      c ∈ canonical_bibcodes docs := fun _ _ h => alternate_mem_canonical docs h
  constructor
  · rw [sul_new]
    by_cases hu : (recFinal lib docs).update
    · rw [if_pos hu]
      have h := fold_new_length (canonical_bibcodes docs) (alternate_bibcodes docs)
        lib.date_created lib.bibcode
        { update := false, new := [], num_updated := 0, duplicates_removed := 0,
          update_list := [] }
      simpa using h
    · rw [if_neg hu]
  intro k v hmem hc ha
  obtain ⟨l₁, l₂, hsplit⟩ := List.append_of_mem hmem
  have hk2 : k ∉ l₂.map Prod.fst := by
    rw [hsplit] at hnd
    simp only [List.map_append, List.map_cons] at hnd
    exact (List.nodup_cons.mp (List.Nodup.of_append_right hnd)).1
  have hlookupF : alookup (recFinal lib docs).new k
      = some (backfillEntry lib.date_created v) := by
    unfold recFinal
    rw [hsplit, List.foldl_append, List.foldl_cons]
    rw [fold_preserve_lookup _ _ _ hA hc l₂ _ hk2]
    rw [recStep_unrec _ _ _ _ hc ha]
    exact alookup_ainsert_self _ k _
  have hback : v.timestamp.isSome = true → backfillEntry lib.date_created v = v :=
    fun h => backfillEntry_of_isSome _ h
  constructor
  · rw [sul_new]
    by_cases hu : (recFinal lib docs).update
    · rw [if_pos hu]
      exact hlookupF
    · rw [if_neg hu]
      have hu' : (recFinal lib docs).update = false := by
        simpa using hu
      have hgood := (fold_update_false (canonical_bibcodes docs) (alternate_bibcodes docs)
        lib.date_created lib.bibcode
        { update := false, new := [], num_updated := 0, duplicates_removed := 0,
          update_list := [] } hu').2 (k, v) hmem
      rw [hback hgood.1]
      exact alookup_of_mem_nodup hnd hmem
  · intro hts
    rw [sul_new]
    by_cases hu : (recFinal lib docs).update
    · rw [if_pos hu]
      rw [← hback hts]
      exact hlookupF
    · rw [if_neg hu]
      exact alookup_of_mem_nodup hnd hmem

/-- C4: reconciliation is idempotent — rerunning `solr_update_library` with
the same response set on the already-reconciled DocumentSet leaves the stored
state identical and returns zero deltas (no write, `num_updated = 0`,
`duplicates_removed = 0`, empty `update_list`). -/
theorem reconcile_idempotent (lib : Library) (docs : List SolrDoc)
    (hnd : (lib.bibcode.map Prod.fst).Nodup) :
    solr_update_library
        { lib with bibcode := (solr_update_library lib docs).newBibcode } docs
      = { newBibcode := (solr_update_library lib docs).newBibcode, wrote := false,
          num_updated := 0, duplicates_removed := 0, update_list := [] } := by
  have hA : ∀ x c, alookup (alternate_bibcodes docs) x = some c →
      c ∈ canonical_bibcodes docs := fun _ _ h => alternate_mem_canonical docs h
  set r := solr_update_library lib docs with hr
  have hgood : ∀ p ∈ r.newBibcode,
      GoodVal (canonical_bibcodes docs) (alternate_bibcodes docs) p.1 p.2 := by
    rw [hr, sul_new]
    by_cases hu : (recFinal lib docs).update
    · rw [if_pos hu]
      exact fold_new_good (canonical_bibcodes docs) (alternate_bibcodes docs)
        lib.date_created hA lib.bibcode
        { update := false, new := [], num_updated := 0, duplicates_removed := 0,
          update_list := [] } (by simp)
    · rw [if_neg hu]
      have hu' : (recFinal lib docs).update = false := by simpa using hu
      exact (fold_update_false (canonical_bibcodes docs) (alternate_bibcodes docs)
        lib.date_created lib.bibcode
        { update := false, new := [], num_updated := 0, duplicates_removed := 0,
          update_list := [] } hu').2
  have hndk : (r.newBibcode.map Prod.fst).Nodup := by
    rw [hr, sul_new]
    by_cases hu : (recFinal lib docs).update
    · rw [if_pos hu]
      exact fold_new_nodup (canonical_bibcodes docs) (alternate_bibcodes docs)
        lib.date_created lib.bibcode
        { update := false, new := [], num_updated := 0, duplicates_removed := 0,
          update_list := [] } (by simp)
    · rw [if_neg hu]
      exact hnd
  have hrun := fold_good_run (canonical_bibcodes docs) (alternate_bibcodes docs)
    lib.date_created r.newBibcode [] hgood hndk (by simp)
  have hF2 : recFinal { lib with bibcode := r.newBibcode } docs
      = { update := false, new := r.newBibcode, num_updated := 0,
          duplicates_removed := 0, update_list := [] } := by
    unfold recFinal
    simpa using hrun
  rw [show solr_update_library { lib with bibcode := r.newBibcode } docs =
      { newBibcode := if (recFinal { lib with bibcode := r.newBibcode } docs).update
          then (recFinal { lib with bibcode := r.newBibcode } docs).new
          else r.newBibcode,
        wrote := (recFinal { lib with bibcode := r.newBibcode } docs).update,
        num_updated := (recFinal { lib with bibcode := r.newBibcode } docs).num_updated,
        duplicates_removed :=
          (recFinal { lib with bibcode := r.newBibcode } docs).duplicates_removed,
        update_list := (recFinal { lib with bibcode := r.newBibcode } docs).update_list }
      from rfl, hF2]
  simp

/-! ## Scenario and read-path lemmas -/

/-- C1 counterexample: with stored `{A: 1, B: 2}` and a response whose single
record is canonical B listing alternate A, the rebuilt DocumentSet is
`{B: 2}` — B keeps its own stored timestamp, not A's earlier one as the
claim asserts — while the statistics match the claim. -/
theorem canonical_overwrite_counterexample :
    (solr_update_library
        { bibcode := [("A", ⟨some 1⟩), ("B", ⟨some 2⟩)], date_created := 0,
          public := true }
        [{ bibcode := "B", alternate_bibcode := ["A"] }]).newBibcode
      = [("B", ⟨some 2⟩)] ∧
    (solr_update_library
        { bibcode := [("A", ⟨some 1⟩), ("B", ⟨some 2⟩)], date_created := 0,
          public := true }
        [{ bibcode := "B", alternate_bibcode := ["A"] }]).newBibcode
      ≠ [("B", ⟨some 1⟩)] := by
  constructor
  · rfl
  · decide

/-- C1 amended: in the scenario stored `{A: t1, B: t2}` with canonical B and
alternate A→B, reconciliation reports `num_updated = 1`,
`duplicates_removed = 0`, `update_list = [{A: B}]` as claimed, but the
resulting DocumentSet is `{B: t2}`: the canonical identifier's own stored
metadata wins, because the canonical branch overwrites the entry that the
earlier alternate remap inserted. -/
theorem canonical_scenario_amended (t1 t2 d : Nat) (pub : Bool) :
    solr_update_library
        { bibcode := [("A", ⟨some t1⟩), ("B", ⟨some t2⟩)], date_created := d,
          public := pub }
        [{ bibcode := "B", alternate_bibcode := ["A"] }]
      = { newBibcode := [("B", ⟨some t2⟩)], wrote := true, num_updated := 1,
          duplicates_removed := 0, update_list := [("A", "B")] } := by
  rfl

/-- C6: the effective role computed by the permission evaluation is the
first true flag in the strict priority order owner > admin > write > read,
and `none` when no flag is true; in particular a Permission with both
`write` and `read` true reports `write`. -/
theorem main_permission_first_true :
    (∀ p : Permissions, main_permission p = firstTrueRole p) ∧
    main_permission
        { owner := false, admin := false, write := true, read := true }
      = Role.write := by
  constructor
  · intro p
    cases p with
    | mk o a w r => cases o <;> cases a <;> cases w <;> cases r <;> rfl
  · rfl

/-- C2 counterexample: a request with no identity header at all is rejected
with the missing-identity error before any other logic runs, for a public
and a private library alike — not the claimed 200-with-documents (public)
nor the permission-denied error (private). -/
theorem no_header_counterexample :
    (libraryGet Option.none 0 20 "date desc" false false (fun _ => false)
        (fun _ => false)
        { bibcode := [("X", ⟨some 1⟩)], date_created := 0, public := true }
        (some [])).1 = missingUsernameResp ∧
    (libraryGet Option.none 0 20 "date desc" false false (fun _ => false)
        (fun _ => false)
        { bibcode := [("X", ⟨some 1⟩)], date_created := 0, public := false }
        (some [])).1 = missingUsernameResp ∧
    missingUsernameResp.status ≠ Status.ok200 ∧
    missingUsernameResp.status ≠ Status.permissionDenied ∧
    missingUsernameResp.documents = Option.none := by
  refine ⟨rfl, rfl, ?_, ?_, rfl⟩ <;> decide

/-- C2 amended: for a request whose identity header names a user unknown to
the service (so no permissions can apply — the anonymous case the code
actually distinguishes), a public library returns the assembled 200 response
with the documents key present, while a private library returns the
permission-denied error whose body has no documents key. -/
theorem anonymous_public_vs_private (lib : Library) (solr : Option (List SolrDoc))
    (u start rows : Nat) (uE rA : Nat → Bool) (huE : uE u = false) :
    ((libraryGet (some u) start rows "date desc" false false uE rA
        { lib with public := true } solr).1.status = Status.ok200 ∧
      (libraryGet (some u) start rows "date desc" false false uE rA
        { lib with public := true } solr).1.documents ≠ Option.none) ∧
    ((libraryGet (some u) start rows "date desc" false false uE rA
        { lib with public := false } solr).1.status = Status.permissionDenied ∧
      (libraryGet (some u) start rows "date desc" false false uE rA
        { lib with public := false } solr).1.documents = Option.none) := by
  cases solr with
  | none =>
    constructor
    · constructor <;> simp [libraryGet, authorize]
    · constructor <;> simp [libraryGet, authorize, huE, noPermissionResp]
  | some sdocs =>
    constructor
    · constructor <;> simp [libraryGet, authorize]
    · constructor <;> simp [libraryGet, authorize, huE, noPermissionResp]

/-- C3 evidence: with stored timestamps `X: 2, Y: 1` and a usable index
response in native order `[X, Y]`, a read with `sort=time asc` returns the
native order `[X, Y]` — the truthiness test `if add_sort:` skips the local
sort because `add_sort` is `False` for `time asc` — although
`timestamp_sort` itself, which the read path is documented to apply, would
return the chronological order `[Y, X]`.  The desc flag, being truthy, is
applied: a `time desc` read on stamps `X: 3, Y: 5` reorders `[X, Y]` to
`[Y, X]`. -/
theorem time_asc_skipped_on_usable_response :
    (libraryGet (some 7) 0 20 "time asc" false false (fun _ => false)
        (fun _ => false)
        { bibcode := [("X", ⟨some 2⟩), ("Y", ⟨some 1⟩)], date_created := 0,
          public := true }
        (some [{ bibcode := "X", alternate_bibcode := [] },
               { bibcode := "Y", alternate_bibcode := [] }])).1.documents
      = some ["X", "Y"] ∧
    timestamp_sort
        { bibcode := [("X", ⟨some 2⟩), ("Y", ⟨some 1⟩)], date_created := 0,
          public := true } ["X", "Y"] false
      = ["Y", "X"] ∧
    (libraryGet (some 7) 0 20 "time desc" false false (fun _ => false)
        (fun _ => false)
        { bibcode := [("X", ⟨some 3⟩), ("Y", ⟨some 5⟩)], date_created := 0,
          public := true }
        (some [{ bibcode := "X", alternate_bibcode := [] },
               { bibcode := "Y", alternate_bibcode := [] }])).1.documents
      = some ["Y", "X"] := by
  refine ⟨rfl, rfl, rfl⟩

/-- C7 counterexample: a solr failure combined with a requested time sort
over a library holding an entry with no stored timestamp does not fall back
to a successful response — the fallback's timestamp lookup raises and the
request is answered with the missing-library error. -/
theorem fallback_timesort_failure_counterexample :
    (libraryGet (some 7) 0 20 "time asc" false false (fun _ => false)
        (fun _ => false)
        { bibcode := [("X", ⟨Option.none⟩)], date_created := 5, public := true }
        Option.none).1 = missingLibraryResp ∧
    missingLibraryResp.status ≠ Status.ok200 ∧
    missingLibraryResp.documents = Option.none := by
  refine ⟨rfl, ?_, rfl⟩
  decide

theorem timestampPairs_of_isSome :
    ∀ (m : DocSet), (∀ p ∈ m, p.2.timestamp.isSome = true) →
      ∃ prs, timestampPairs m = some prs ∧
        prs.map Prod.fst = m.map Prod.fst ∧ prs.length = m.length := by
  intro m
  induction m with
  | nil => intro _; exact ⟨[], rfl, rfl, rfl⟩
  | cons p m ih =>
    intro h
    obtain ⟨k, e⟩ := p
    obtain ⟨t, ht⟩ := Option.isSome_iff_exists.mp (h (k, e) (List.mem_cons_self _ _))
    have ht' : e.timestamp = some t := ht
    obtain ⟨prs, h1, h2, h3⟩ := ih (fun q hq => h q (List.mem_cons_of_mem _ hq))
    refine ⟨(k, t) :: prs, ?_, ?_, ?_⟩
    · simp [timestampPairs, ht', h1]
    · simp [h2]
    · simp [h3]

theorem paginate_sublist (l : List String) (start rows : Nat) :
    (paginate l start rows).Sublist l :=
  ((l.drop start).take_sublist rows).trans (l.drop_sublist start)

theorem paginate_length (l : List String) (start rows : Nat) :
    (paginate l start rows).length = min rows (l.length - start) := by
  simp [paginate]

theorem length_insertLt {α : Type} (lt : α → α → Bool) (a : α) (l : List α) :
    (insertLt lt a l).length = l.length + 1 := by
  induction l with
  | nil => rfl
  | cons b l ih =>
    by_cases h : lt b a
    · simp [insertLt, h, ih]
    · simp [insertLt, h]

theorem length_isortLt {α : Type} (lt : α → α → Bool) (l : List α) :
    (isortLt lt l).length = l.length := by
  induction l with
  | nil => rfl
  | cons a l ih => simp [isortLt, length_insertLt, ih]

theorem perm_insertLt {α : Type} (lt : α → α → Bool) (a : α) (l : List α) :
    (insertLt lt a l).Perm (a :: l) := by
  induction l with
  | nil => exact List.Perm.refl _
  | cons b l ih =>
    by_cases h : lt b a
    · rw [insertLt, if_pos h]
      exact (ih.cons b).trans (List.Perm.swap a b l)
    · rw [insertLt, if_neg h]

theorem perm_isortLt {α : Type} (lt : α → α → Bool) (l : List α) :
    (isortLt lt l).Perm l := by
  induction l with
  | nil => exact List.Perm.refl _
  | cons a l ih => exact (perm_insertLt lt a (isortLt lt l)).trans (ih.cons a)

theorem mem_isortLt {α : Type} (lt : α → α → Bool) (l : List α) (x : α) :
    x ∈ isortLt lt l ↔ x ∈ l :=
  (perm_isortLt lt l).mem_iff

theorem pairwise_insertLt {α : Type} (lt : α → α → Bool)
    (hasym : ∀ a b, lt a b = true → lt b a = false)
    (hntrans : ∀ a b c, lt b a = false → lt c b = false → lt c a = false)
    (a : α) (l : List α) (hl : l.Pairwise (fun x y => lt y x = false)) :
    (insertLt lt a l).Pairwise (fun x y => lt y x = false) := by
  induction l with
  | nil => simp [insertLt]
  | cons b l ih =>
    rcases List.pairwise_cons.mp hl with ⟨hb, hl'⟩
    by_cases hba : lt b a = true
    · rw [insertLt, if_pos hba]
      refine List.pairwise_cons.mpr ⟨?_, ih hl'⟩
      intro x hx
      rcases List.mem_cons.mp ((perm_insertLt lt a l).mem_iff.mp hx) with rfl | hx
      · exact hasym b x hba
      · exact hb x hx
    · have hba' : lt b a = false := by
        simpa using hba
      rw [insertLt, if_neg (by simp [hba'])]
      refine List.pairwise_cons.mpr ⟨?_, hl⟩
      intro x hx
      rcases List.mem_cons.mp hx with rfl | hx
      · exact hba'
      · exact hntrans a b x hba' (hb x hx)

theorem pairwise_isortLt {α : Type} (lt : α → α → Bool)
    (hasym : ∀ a b, lt a b = true → lt b a = false)
    (hntrans : ∀ a b c, lt b a = false → lt c b = false → lt c a = false)
    (l : List α) :
    (isortLt lt l).Pairwise (fun x y => lt y x = false) := by
  induction l with
  | nil => simp [isortLt]
  | cons a l ih => exact pairwise_insertLt lt hasym hntrans a _ ih

theorem tsLtAsc_asym (a b : String × Nat) : tsLtAsc a b = true → tsLtAsc b a = false := by
  intro h
  simp [tsLtAsc] at h ⊢
  omega

theorem tsLtAsc_ntrans (a b c : String × Nat) :
    tsLtAsc b a = false → tsLtAsc c b = false → tsLtAsc c a = false := by
  intro h1 h2
  simp [tsLtAsc] at h1 h2 ⊢
  omega

theorem tsLtDesc_asym (a b : String × Nat) : tsLtDesc a b = true → tsLtDesc b a = false := by
  intro h
  simp [tsLtDesc] at h ⊢
  omega

theorem tsLtDesc_ntrans (a b c : String × Nat) :
    tsLtDesc b a = false → tsLtDesc c b = false → tsLtDesc c a = false := by
  intro h1 h2
  simp [tsLtDesc] at h1 h2 ⊢
  omega

theorem strLt_asym (a b : String) : strLt a b = true → strLt b a = false := by
  intro h
  simp [strLt] at h ⊢
  exact le_of_lt h

theorem strLt_ntrans (a b c : String) :
    strLt b a = false → strLt c b = false → strLt c a = false := by
  intro h1 h2
  simp [strLt] at h1 h2 ⊢
  exact le_trans h1 h2

theorem timestampPairs_keys :
    ∀ (m : DocSet) (prs : List (String × Nat)), timestampPairs m = some prs →
      prs.map Prod.fst = m.map Prod.fst := by
  intro m
  induction m with
  | nil =>
    intro prs h
    cases h
    rfl
  | cons p rest ih =>
    obtain ⟨k, e⟩ := p
    intro prs h
    cases het : e.timestamp with
    | none => rw [timestampPairs, het] at h; cases h
    | some t =>
      cases hrest : timestampPairs rest with
      | none => rw [timestampPairs, het, hrest] at h; cases h
      | some ps =>
        rw [timestampPairs, het, hrest] at h
        cases h
        simp [ih ps hrest]

theorem timestampPairs_tsOf :
    ∀ (m : DocSet) (prs : List (String × Nat)),
      (m.map Prod.fst).Nodup → timestampPairs m = some prs →
      ∀ p ∈ prs, tsOf m p.1 = some p.2 := by
  intro m
  induction m with
  | nil =>
    intro prs _ h
    cases h
    intro p hp
    cases hp
  | cons q rest ih =>
    obtain ⟨k, e⟩ := q
    intro prs hnd h
    cases het : e.timestamp with
    | none => rw [timestampPairs, het] at h; cases h
    | some t =>
      cases hrest : timestampPairs rest with
      | none => rw [timestampPairs, het, hrest] at h; cases h
      | some ps =>
        rw [timestampPairs, het, hrest] at h
        cases h
        simp only [List.map_cons, List.nodup_cons] at hnd
        intro p hp
        rcases List.mem_cons.mp hp with rfl | hp
        · simp [tsOf, alookup, het]
        · have hne : k ≠ p.1 := by
            intro hk
            apply hnd.1
            rw [hk, ← timestampPairs_keys rest ps hrest]
            exact List.mem_map_of_mem Prod.fst hp
          have := ih ps hnd.2 hrest p hp
          simpa [tsOf, alookup, hne] using this

/-- C8: in raw mode and in the solr-failure fallback, the paginated output
has length `min(rows, max(0, total - start))` where `total` is the number of
stored identifiers (natural subtraction is exactly `max 0` of the integer
difference), and a `start` beyond the total yields an empty sequence rather
than an error. -/
theorem window_length_fallback_and_raw (lib : Library) (u start rows : Nat)
    (uE rA : Nat → Bool) (hpub : lib.public = true) :
    (∃ ds, (libraryGet (some u) start rows "date desc" true false uE rA lib
        Option.none).1.documents = some ds ∧
      ds.length = min rows (lib.bibcode.length - start) ∧
      (lib.bibcode.length ≤ start → ds = [])) ∧
    (∃ ds, (libraryGet (some u) start rows "date desc" false false uE rA lib
        Option.none).1.documents = some ds ∧
      ds.length = min rows (lib.bibcode.length - start) ∧
      (lib.bibcode.length ≤ start → ds = [])) := by
  have hlen : (paginate (isortLt strLt (get_bibcodes lib)) start rows).length
      = min rows (lib.bibcode.length - start) := by
    rw [paginate_length, length_isortLt]
    simp [get_bibcodes]
  have hnil : lib.bibcode.length ≤ start →
      paginate (isortLt strLt (get_bibcodes lib)) start rows = [] := by
    intro h
    rw [← List.length_eq_zero, hlen]
    omega
  constructor
  · refine ⟨paginate (isortLt strLt (get_bibcodes lib)) start rows, ?_, hlen, hnil⟩
    simp [libraryGet, authorize, hpub]
  · refine ⟨paginate (isortLt strLt (get_bibcodes lib)) start rows, ?_, hlen, hnil⟩
    simp [libraryGet, authorize, hpub]

/-- C7 (amended): when the index response is unusable the reconciler is not
run — the stored DocumentSet is untouched and the reconciliation stats are
the empty placeholder — and, provided the caller passes the authorization
gate (here: a public library) and every stored entry has a timestamp when a
time sort is requested, the request succeeds with the stored identifiers
sorted locally and windowed. -/
theorem fallback_on_unusable_response (lib : Library) (u start rows : Nat)
    (sort : String) (uE rA : Nat → Bool)
    (hnd : (lib.bibcode.map Prod.fst).Nodup)
    (hpub : lib.public = true)
    (hts : ∀ p ∈ lib.bibcode, p.2.timestamp.isSome = true) :
    (libraryGet (some u) start rows sort false false uE rA lib
      Option.none).2 = lib ∧
    (libraryGet (some u) start rows sort false false uE rA lib
      Option.none).1.status = Status.ok200 ∧
    (libraryGet (some u) start rows sort false false uE rA lib
      Option.none).1.updates = Option.none ∧
    ∃ ds,
      (libraryGet (some u) start rows sort false false uE rA lib
        Option.none).1.documents = some ds ∧
      ds.length = min rows (lib.bibcode.length - start) ∧
      (∀ x ∈ ds, x ∈ lib.bibcode.map Prod.fst) ∧
      (sort = "time asc" → ds.Pairwise (fun x y => ∀ tx ty,
          tsOf lib.bibcode x = some tx → tsOf lib.bibcode y = some ty →
          tx ≤ ty)) ∧
      (sort = "time desc" → ds.Pairwise (fun x y => ∀ tx ty,
          tsOf lib.bibcode x = some tx → tsOf lib.bibcode y = some ty →
          ty ≤ tx)) ∧
      (sort ≠ "time asc" → sort ≠ "time desc" →
        ds.Pairwise (fun x y => strLt y x = false)) := by
  obtain ⟨prs, hprs, hkeys, hplen⟩ := timestampPairs_of_isSome lib.bibcode hts
  have htsof := timestampPairs_tsOf lib.bibcode prs hnd hprs
  have hmemlem : ∀ (cmp : (String × Nat) → (String × Nat) → Bool),
      ∀ x ∈ paginate ((isortLt cmp prs).map Prod.fst) start rows,
        x ∈ lib.bibcode.map Prod.fst := by
    intro cmp x hx
    have hx2 := (paginate_sublist _ _ _).subset hx
    rw [List.mem_map] at hx2
    obtain ⟨p, hp, rfl⟩ := hx2
    rw [← hkeys]
    exact List.mem_map_of_mem Prod.fst ((mem_isortLt cmp prs p).mp hp)
  have hlenlem : ∀ (cmp : (String × Nat) → (String × Nat) → Bool),
      (paginate ((isortLt cmp prs).map Prod.fst) start rows).length
        = min rows (lib.bibcode.length - start) := by
    intro cmp
    rw [paginate_length, List.length_map, length_isortLt, hplen]
  by_cases h1 : sort = "time asc"
  · subst h1
    refine ⟨by simp [libraryGet, hprs], by simp [libraryGet, hprs, authorize, hpub],
      by simp [libraryGet, hprs, authorize, hpub],
      paginate ((isortLt tsLtAsc prs).map Prod.fst) start rows,
      by simp [libraryGet, hprs, authorize, hpub, paginate],
      hlenlem tsLtAsc, hmemlem tsLtAsc, ?_, ?_, ?_⟩
    · intro _
      have hpw := pairwise_isortLt tsLtAsc tsLtAsc_asym tsLtAsc_ntrans prs
      have hmap : ((isortLt tsLtAsc prs).map Prod.fst).Pairwise
          (fun x y => ∀ tx ty, tsOf lib.bibcode x = some tx →
            tsOf lib.bibcode y = some ty → tx ≤ ty) := by
        rw [List.pairwise_map]
        refine hpw.imp_of_mem ?_
        intro p q hp hq hlt tx ty htx hty
        have hpts := htsof p ((mem_isortLt _ _ _).mp hp)
        have hqts := htsof q ((mem_isortLt _ _ _).mp hq)
        rw [hpts] at htx
        rw [hqts] at hty
        cases htx
        cases hty
        simp [tsLtAsc] at hlt
        omega
      exact hmap.sublist (paginate_sublist _ _ _)
    · intro hcontra
      simp at hcontra
    · intro hx _
      exact absurd rfl hx
  · by_cases h2 : sort = "time desc"
    · subst h2
      refine ⟨by simp [libraryGet, hprs], by simp [libraryGet, hprs, authorize, hpub],
        by simp [libraryGet, hprs, authorize, hpub],
        paginate ((isortLt tsLtDesc prs).map Prod.fst) start rows,
        by simp [libraryGet, hprs, authorize, hpub, paginate],
        hlenlem tsLtDesc, hmemlem tsLtDesc, ?_, ?_, ?_⟩
      · intro hcontra
        simp at hcontra
      · intro _
        have hpw := pairwise_isortLt tsLtDesc tsLtDesc_asym tsLtDesc_ntrans prs
        have hmap : ((isortLt tsLtDesc prs).map Prod.fst).Pairwise
            (fun x y => ∀ tx ty, tsOf lib.bibcode x = some tx →
              tsOf lib.bibcode y = some ty → ty ≤ tx) := by
          rw [List.pairwise_map]
          refine hpw.imp_of_mem ?_
          intro p q hp hq hlt tx ty htx hty
          have hpts := htsof p ((mem_isortLt _ _ _).mp hp)
          have hqts := htsof q ((mem_isortLt _ _ _).mp hq)
          rw [hpts] at htx
          rw [hqts] at hty
          cases htx
          cases hty
          simp [tsLtDesc] at hlt
          omega
        exact hmap.sublist (paginate_sublist _ _ _)
      · intro _ hx
        exact absurd rfl hx
    · have hlen : (paginate (isortLt strLt (get_bibcodes lib)) start rows).length
          = min rows (lib.bibcode.length - start) := by
        rw [paginate_length, length_isortLt]
        simp [get_bibcodes]
      have hmem : ∀ x ∈ paginate (isortLt strLt (get_bibcodes lib)) start rows,
          x ∈ lib.bibcode.map Prod.fst := by
        intro x hx
        have hx2 := (paginate_sublist _ _ _).subset hx
        exact (mem_isortLt strLt (get_bibcodes lib) x).mp hx2
      refine ⟨by simp [libraryGet, h1, h2], by simp [libraryGet, h1, h2, authorize, hpub],
        by simp [libraryGet, h1, h2, authorize, hpub],
        paginate (isortLt strLt (get_bibcodes lib)) start rows,
        by simp [libraryGet, h1, h2, authorize, hpub],
        hlen, hmem, ?_, ?_, ?_⟩
      · intro hx
        exact absurd hx h1
      · intro hx
        exact absurd hx h2
      · intro _ _
        have hpw := pairwise_isortLt strLt strLt_asym strLt_ntrans (get_bibcodes lib)
        exact hpw.sublist (paginate_sublist _ _ _)

/-! ## Witnesses: the hypotheses of the claim theorems are satisfiable -/

theorem reconcile_idempotent_witness :
    ((([("A", (⟨some 1⟩ : DocEntry)), ("B", ⟨some 2⟩)] : DocSet).map Prod.fst).Nodup) ∧
    solr_update_library
        { bibcode := (solr_update_library
            { bibcode := [("A", ⟨some 1⟩), ("B", ⟨some 2⟩)], date_created := 0,
              public := true }
            [{ bibcode := "B", alternate_bibcode := ["A"] }]).newBibcode,
          date_created := 0, public := true }
        [{ bibcode := "B", alternate_bibcode := ["A"] }]
      = { newBibcode := (solr_update_library
            { bibcode := [("A", ⟨some 1⟩), ("B", ⟨some 2⟩)], date_created := 0,
              public := true }
            [{ bibcode := "B", alternate_bibcode := ["A"] }]).newBibcode,
          wrote := false, num_updated := 0, duplicates_removed := 0,
          update_list := [] } :=
  ⟨by decide,
   reconcile_idempotent
     { bibcode := [("A", ⟨some 1⟩), ("B", ⟨some 2⟩)], date_created := 0,
       public := true }
     [{ bibcode := "B", alternate_bibcode := ["A"] }] (by decide)⟩

theorem reconcile_preserves_unrecognized_witness :
    ((([("A", (⟨some 1⟩ : DocEntry)), ("Z", ⟨Option.none⟩)] : DocSet).map Prod.fst).Nodup) ∧
    ((solr_update_library
        { bibcode := [("A", ⟨some 1⟩), ("Z", ⟨Option.none⟩)], date_created := 7,
          public := true }
        [{ bibcode := "B", alternate_bibcode := ["A"] }]).newBibcode.length
      ≤ ([("A", (⟨some 1⟩ : DocEntry)), ("Z", ⟨Option.none⟩)] : DocSet).length ∧
    ∀ k v, (k, v) ∈ ([("A", ⟨some 1⟩), ("Z", ⟨Option.none⟩)] : DocSet) →
      k ∉ canonical_bibcodes [{ bibcode := "B", alternate_bibcode := ["A"] }] →
      alookup (alternate_bibcodes [{ bibcode := "B", alternate_bibcode := ["A"] }]) k
        = none →
      alookup (solr_update_library
          { bibcode := [("A", ⟨some 1⟩), ("Z", ⟨Option.none⟩)], date_created := 7,
            public := true }
          [{ bibcode := "B", alternate_bibcode := ["A"] }]).newBibcode k
        = some (backfillEntry 7 v) ∧
      (v.timestamp.isSome = true →
        alookup (solr_update_library
            { bibcode := [("A", ⟨some 1⟩), ("Z", ⟨Option.none⟩)], date_created := 7,
              public := true }
            [{ bibcode := "B", alternate_bibcode := ["A"] }]).newBibcode k
          = some v)) :=
  ⟨by decide,
   reconcile_preserves_unrecognized
     { bibcode := [("A", ⟨some 1⟩), ("Z", ⟨Option.none⟩)], date_created := 7,
       public := true }
     [{ bibcode := "B", alternate_bibcode := ["A"] }] (by decide)⟩

theorem anonymous_public_vs_private_witness :
    ((fun _ : Nat => false) 7 = false) ∧
    (((libraryGet (some 7) 0 20 "date desc" false false (fun _ => false)
        (fun _ => false)
        { bibcode := [("X", ⟨some 1⟩)], date_created := 0, public := true }
        Option.none).1.status = Status.ok200 ∧
      (libraryGet (some 7) 0 20 "date desc" false false (fun _ => false)
        (fun _ => false)
        { bibcode := [("X", ⟨some 1⟩)], date_created := 0, public := true }
        Option.none).1.documents ≠ Option.none) ∧
    ((libraryGet (some 7) 0 20 "date desc" false false (fun _ => false)
        (fun _ => false)
        { bibcode := [("X", ⟨some 1⟩)], date_created := 0, public := false }
        Option.none).1.status = Status.permissionDenied ∧
      (libraryGet (some 7) 0 20 "date desc" false false (fun _ => false)
        (fun _ => false)
        { bibcode := [("X", ⟨some 1⟩)], date_created := 0, public := false }
        Option.none).1.documents = Option.none)) :=
  ⟨rfl,
   anonymous_public_vs_private
     { bibcode := [("X", ⟨some 1⟩)], date_created := 0, public := true }
     Option.none 7 0 20 (fun _ => false) (fun _ => false) rfl⟩

theorem fallback_on_unusable_response_witness :
    ((([("X", (⟨some 5⟩ : DocEntry)), ("Y", ⟨some 3⟩)] : DocSet).map Prod.fst).Nodup) ∧
    ((Library.mk [("X", ⟨some 5⟩), ("Y", ⟨some 3⟩)] 0 true).public = true) ∧
    (∀ p ∈ ([("X", (⟨some 5⟩ : DocEntry)), ("Y", ⟨some 3⟩)] : DocSet),
      p.2.timestamp.isSome = true) ∧
    ((libraryGet (some 1) 0 10 "time asc" false false (fun _ => false)
        (fun _ => false)
        { bibcode := [("X", ⟨some 5⟩), ("Y", ⟨some 3⟩)], date_created := 0,
          public := true } Option.none).2
      = { bibcode := [("X", ⟨some 5⟩), ("Y", ⟨some 3⟩)], date_created := 0,
          public := true } ∧
    (libraryGet (some 1) 0 10 "time asc" false false (fun _ => false)
        (fun _ => false)
        { bibcode := [("X", ⟨some 5⟩), ("Y", ⟨some 3⟩)], date_created := 0,
          public := true } Option.none).1.status = Status.ok200) :=
  ⟨by decide, rfl, by decide,
   (fallback_on_unusable_response
     { bibcode := [("X", ⟨some 5⟩), ("Y", ⟨some 3⟩)], date_created := 0,
       public := true }
     1 0 10 "time asc" (fun _ => false) (fun _ => false)
     (by decide) rfl (by decide)).1,
   (fallback_on_unusable_response
     { bibcode := [("X", ⟨some 5⟩), ("Y", ⟨some 3⟩)], date_created := 0,
       public := true }
     1 0 10 "time asc" (fun _ => false) (fun _ => false)
     (by decide) rfl (by decide)).2.1⟩

theorem window_length_fallback_and_raw_witness :
    ((Library.mk [("B", ⟨some 1⟩), ("A", ⟨some 2⟩)] 0 true).public = true) ∧
    ((∃ ds, (libraryGet (some 1) 1 5 "date desc" true false (fun _ => false)
        (fun _ => false)
        { bibcode := [("B", ⟨some 1⟩), ("A", ⟨some 2⟩)], date_created := 0,
          public := true } Option.none).1.documents = some ds ∧
      ds.length = min 5
        (([("B", (⟨some 1⟩ : DocEntry)), ("A", ⟨some 2⟩)] : DocSet).length - 1) ∧
      (([("B", (⟨some 1⟩ : DocEntry)), ("A", ⟨some 2⟩)] : DocSet).length ≤ 1 →
        ds = [])) ∧
    (∃ ds, (libraryGet (some 1) 1 5 "date desc" false false (fun _ => false)
        (fun _ => false)
        { bibcode := [("B", ⟨some 1⟩), ("A", ⟨some 2⟩)], date_created := 0,
          public := true } Option.none).1.documents = some ds ∧
      ds.length = min 5
        (([("B", (⟨some 1⟩ : DocEntry)), ("A", ⟨some 2⟩)] : DocSet).length - 1) ∧
      (([("B", (⟨some 1⟩ : DocEntry)), ("A", ⟨some 2⟩)] : DocSet).length ≤ 1 →
        ds = []))) :=
  ⟨rfl,
   window_length_fallback_and_raw
     { bibcode := [("B", ⟨some 1⟩), ("A", ⟨some 2⟩)], date_created := 0,
       public := true }
     1 1 5 (fun _ => false) (fun _ => false) rfl⟩

end Biblib
